import Mathlib

/-!
Verification of the opencode-momo session-memory orchestration subsystem.

Shallow embedding of the TypeScript sources:
- `src/config.ts` / the project-aware `loadConfig` variant (configuration resolution)
- `services/tags.ts` (container-tag derivation: djb2-style hash, slug, overrides)
- `services/privacy.ts` (private-span stripping)
- `services/context.ts` (context-block formatting)
- `services/compaction.ts` (per-session compaction state machine with cooldown)
- the plugin index (chat.message injection hook, waitForIngestion poller)

JavaScript-specific behaviors are embedded explicitly: `??` null-coalescing
becomes `orElseOpt` on `Option String`; truthiness tests on strings become
emptiness tests; 32-bit integer coercion in the hash becomes `% 2 ^ 32`;
`Date.now()` readings become explicit `Int` parameters; the mutable
session-state `Map` becomes a function `String → Option _` passed explicitly.
-/

/-! ## Configuration resolution (src/config.ts, project-aware variant) -/

/-- Shape of a parsed momo.jsonc config file: every field optional. -/
structure MomoConfigFile where
  apiKey : Option String
  baseUrl : Option String
  containerTagUser : Option String
  containerTagProject : Option String
deriving DecidableEq, Repr

/-- The empty config file object `{}` that a failed read degrades to. -/
def emptyConfigFile : MomoConfigFile :=
  { apiKey := none, baseUrl := none, containerTagUser := none, containerTagProject := none }

/-- The four MOMO_* environment variables read by `loadConfig`. -/
structure EnvVars where
  apiKey : Option String
  baseUrl : Option String
  containerTagUser : Option String
  containerTagProject : Option String
deriving DecidableEq, Repr

/-- The resolved configuration returned by `loadConfig`. -/
structure MomoConfig where
  apiKey : Option String
  baseUrl : String
  containerTagUser : Option String
  containerTagProject : Option String
deriving DecidableEq, Repr

def DEFAULT_BASE_URL : String := "http://localhost:3000"

/-- JavaScript `a ?? b` on possibly-absent string values. -/
def orElseOpt (a b : Option String) : Option String :=
  match a with
  | some v => some v
  | none => b

/-- File-read outcome for a config file. The repository's
`services/jsonc` comment stripper and `JSON.parse` are opaque I/O here, so a
file state is classified by the outcome of the read-strip-parse pipeline. -/
inductive ConfigFileState where
  | absent : ConfigFileState
  | unreadable : ConfigFileState
  | malformed : ConfigFileState
  | wellFormed : MomoConfigFile → ConfigFileState
deriving DecidableEq

/-- Modelled from the spec: the `readFileSync` + `stripJsoncComments` +
`JSON.parse` pipeline inside `readJsoncConfigFile` (the `services/jsonc`
module is not under src/). A missing or unreadable file makes `readFileSync`
throw; content that fails to parse even after comment and trailing-comma
stripping makes `JSON.parse` throw; otherwise the parsed object is returned. -/
def readPipeline : ConfigFileState → Except String MomoConfigFile
  | .absent => .error "ENOENT"
  | .unreadable => .error "EACCES"
  | .malformed => .error "SyntaxError"
  | .wellFormed cfg => .ok cfg

/-- True on every file state whose read-strip-parse pipeline throws. -/
def ConfigFileState.isFailing : ConfigFileState → Bool
  | .wellFormed _ => false
  | _ => true

/-- Embeds `readJsoncConfigFile`: the whole pipeline runs inside
`try { ... } catch { return {} }`. -/
def readJsoncConfigFile (st : ConfigFileState) : MomoConfigFile :=
  match readPipeline st with
  | .ok cfg => cfg
  | .error _ => emptyConfigFile

/-- Embeds `loadConfig(directory?)`: per-field `env ?? project ?? global`
resolution, with the built-in default for `baseUrl` only. -/
def loadConfig (env : EnvVars) (projectConfig globalConfig : MomoConfigFile) : MomoConfig :=
  { apiKey := orElseOpt env.apiKey (orElseOpt projectConfig.apiKey globalConfig.apiKey)
    baseUrl :=
      (orElseOpt env.baseUrl (orElseOpt projectConfig.baseUrl globalConfig.baseUrl)).getD
        DEFAULT_BASE_URL
    containerTagUser :=
      orElseOpt env.containerTagUser
        (orElseOpt projectConfig.containerTagUser globalConfig.containerTagUser)
    containerTagProject :=
      orElseOpt env.containerTagProject
        (orElseOpt projectConfig.containerTagProject globalConfig.containerTagProject) }

/-! ## Container-tag derivation (services/tags.ts) -/

/-- Embeds `simpleHash`: djb2-style fold `h = (h * 33) ^ charCode`, seeded at
5381. JavaScript coerces the intermediate to a 32-bit integer at the XOR and
reads it back unsigned via `>>> 0`; on the unsigned representative this is
exactly multiplication modulo `2 ^ 32` followed by XOR. Characters stand for
UTF-16 code units, which agree with code points on the BMP inputs used here.
Rendered as lowercase hexadecimal like `Number.prototype.toString(16)`. -/
def simpleHash (input : String) : String :=
  let h := input.toList.foldl (fun h c => (h * 33 % 4294967296) ^^^ c.toNat) 5381
  String.mk (Nat.toDigits 16 h)

/-- Embeds `userTag`: the OS username is an explicit parameter; `""` is falsy
in `username || "unknown"`. -/
def userTag (username : String) : String :=
  let u := if username = "" then "unknown" else username
  "opencode-user-" ++ simpleHash u

/-- Strips the trailing run of `/` or `\` characters, as
`dir.replace(/[\\/]+$/, "")` does. -/
def stripTrailingSlashes (s : String) : String :=
  String.mk ((s.toList.reverse.dropWhile (fun c => c == '/' || c == '\\')).reverse)

/-- POSIX `basename`: the portion after the last `/`. -/
def basenameOf (s : String) : String :=
  String.mk ((s.toList.reverse.takeWhile (fun c => c != '/')).reverse)

def isSlugChar (c : Char) : Bool :=
  ('a' ≤ c && c ≤ 'z') || ('0' ≤ c && c ≤ '9')

/-- Collapses runs of `-` to a single `-`, tracking whether the previous
emitted character was a dash. Together with mapping every non-slug character
to `-`, this matches `replace(/[^a-z0-9]+/g, "-")`. -/
def collapseDashes : List Char → Bool → List Char
  | [], _ => []
  | c :: t, prev =>
    if c == '-' then
      if prev then collapseDashes t true else '-' :: collapseDashes t true
    else c :: collapseDashes t false

/-- Embeds `slugify`: lowercase, replace runs of non-`[a-z0-9]` with `-`,
trim leading/trailing dashes, truncate to 80 characters. -/
def slugify (value : String) : String :=
  let lowered := value.toList.map Char.toLower
  let dashed := lowered.map (fun c => if isSlugChar c then c else '-')
  let collapsed := collapseDashes dashed false
  let inner := (((collapsed.dropWhile (fun c => c == '-')).reverse.dropWhile
    (fun c => c == '-')).reverse)
  String.mk (inner.take 80)

/-- Embeds `shortHash`: `simpleHash(input).padStart(8, "0").slice(-8)`. -/
def shortHash (input : String) : String :=
  let s := simpleHash input
  let padded :=
    if s.toList.length < 8 then String.mk (List.replicate (8 - s.toList.length) '0') ++ s
    else s
  String.mk ((padded.toList.reverse.take 8).reverse)

/-- Embeds `projectTag`: `""` is falsy in `directory || "."`. -/
def projectTag (directory : String) : String :=
  let dir := if directory = "" then "." else directory
  let projectName := basenameOf (stripTrailingSlashes dir)
  let slug0 := slugify projectName
  let slug := if slug0 = "" then "project" else slug0
  "ocp-" ++ slug ++ "-" ++ shortHash dir

structure Tags where
  user : String
  project : String
deriving DecidableEq, Repr

/-- Embeds `getTags`; the OS username is an explicit parameter. -/
def getTags (username directory : String) : Tags :=
  { user := userTag username, project := projectTag directory }

structure TagOverrides where
  containerTagUser : Option String
  containerTagProject : Option String
deriving DecidableEq, Repr

/-- Embeds `getTagsWithOverrides`: `if (overrides?.containerTagUser)` is a
JavaScript truthiness test, so an absent or empty-string override leaves the
derived tag in place. -/
def getTagsWithOverrides (username directory : String) (overrides : TagOverrides) : Tags :=
  let tags := getTags username directory
  let tags1 :=
    match overrides.containerTagUser with
    | some u => if u = "" then tags else { tags with user := u }
    | none => tags
  match overrides.containerTagProject with
  | some p => if p = "" then tags1 else { tags1 with project := p }
  | none => tags1

/-! ## Claims C2, C3, C4, C10 -/

/-- C2: configuration resolution is per-field with fixed precedence
environment variable > project-local file > global file > built-in default;
a field missing from a higher-precedence source falls through per field
(the baseUrl default applies only when all three sources omit it, and the
other three fields resolve to absent in that case). -/
theorem loadConfig_per_field_precedence (env : EnvVars) (proj glob : MomoConfigFile) :
    ((∀ v, env.apiKey = some v → (loadConfig env proj glob).apiKey = some v) ∧
      (env.apiKey = none → ∀ v, proj.apiKey = some v →
        (loadConfig env proj glob).apiKey = some v) ∧
      (env.apiKey = none → proj.apiKey = none →
        (loadConfig env proj glob).apiKey = glob.apiKey)) ∧
    ((∀ v, env.baseUrl = some v → (loadConfig env proj glob).baseUrl = v) ∧
      (env.baseUrl = none → ∀ v, proj.baseUrl = some v →
        (loadConfig env proj glob).baseUrl = v) ∧
      (env.baseUrl = none → proj.baseUrl = none → ∀ v, glob.baseUrl = some v →
        (loadConfig env proj glob).baseUrl = v) ∧
      (env.baseUrl = none → proj.baseUrl = none → glob.baseUrl = none →
        (loadConfig env proj glob).baseUrl = DEFAULT_BASE_URL)) ∧
    ((∀ v, env.containerTagUser = some v →
        (loadConfig env proj glob).containerTagUser = some v) ∧
      (env.containerTagUser = none → ∀ v, proj.containerTagUser = some v →
        (loadConfig env proj glob).containerTagUser = some v) ∧
      (env.containerTagUser = none → proj.containerTagUser = none →
        (loadConfig env proj glob).containerTagUser = glob.containerTagUser)) ∧
    ((∀ v, env.containerTagProject = some v →
        (loadConfig env proj glob).containerTagProject = some v) ∧
      (env.containerTagProject = none → ∀ v, proj.containerTagProject = some v →
        (loadConfig env proj glob).containerTagProject = some v) ∧
      (env.containerTagProject = none → proj.containerTagProject = none →
        (loadConfig env proj glob).containerTagProject = glob.containerTagProject)) := by
  refine ⟨⟨?_, ?_, ?_⟩, ⟨?_, ?_, ?_, ?_⟩, ⟨?_, ?_, ?_⟩, ⟨?_, ?_, ?_⟩⟩ <;>
    simp only [loadConfig, orElseOpt] <;>
    intros <;>
    simp_all

/-- Witness for C2 at concrete sources: env sets the apiKey, project file
sets the baseUrl, global file sets the containerTagUser. -/
theorem loadConfig_per_field_precedence_witness :
    (loadConfig
        { apiKey := some "envKey", baseUrl := none, containerTagUser := none,
          containerTagProject := none }
        { apiKey := some "projKey", baseUrl := some "http://proj", containerTagUser := none,
          containerTagProject := none }
        { apiKey := some "globKey", baseUrl := some "http://glob",
          containerTagUser := some "globUser", containerTagProject := none }).apiKey
      = some "envKey" ∧
    (loadConfig
        { apiKey := some "envKey", baseUrl := none, containerTagUser := none,
          containerTagProject := none }
        { apiKey := some "projKey", baseUrl := some "http://proj", containerTagUser := none,
          containerTagProject := none }
        { apiKey := some "globKey", baseUrl := some "http://glob",
          containerTagUser := some "globUser", containerTagProject := none }).baseUrl
      = "http://proj" := by
  constructor
  · exact (loadConfig_per_field_precedence _ _ _).1.1 "envKey" rfl
  · exact (loadConfig_per_field_precedence _ _ _).2.1.2.1 rfl "http://proj" rfl

/-- C3: reading a configuration file never raises: every failing file state
(absent, unreadable, or content that fails to parse even after comment and
trailing-comma stripping) yields the empty object, and `loadConfig` over such
a state behaves exactly as with an empty file, in either file position. -/
theorem readJsoncConfigFile_failure_is_empty (st : ConfigFileState) (env : EnvVars)
    (other : MomoConfigFile) (h : st.isFailing = true) :
    readJsoncConfigFile st = emptyConfigFile ∧
    loadConfig env (readJsoncConfigFile st) other = loadConfig env emptyConfigFile other ∧
    loadConfig env other (readJsoncConfigFile st) = loadConfig env other emptyConfigFile := by
  cases st with
  | wellFormed cfg => simp [ConfigFileState.isFailing] at h
  | absent => exact ⟨rfl, rfl, rfl⟩
  | unreadable => exact ⟨rfl, rfl, rfl⟩
  | malformed => exact ⟨rfl, rfl, rfl⟩

/-- Witness for C3 at a concrete malformed file state and concrete
environment. -/
theorem readJsoncConfigFile_failure_is_empty_witness :
    readJsoncConfigFile ConfigFileState.malformed = emptyConfigFile ∧
    loadConfig
        { apiKey := some "k", baseUrl := none, containerTagUser := none,
          containerTagProject := none }
        (readJsoncConfigFile ConfigFileState.malformed) emptyConfigFile
      = loadConfig
          { apiKey := some "k", baseUrl := none, containerTagUser := none,
            containerTagProject := none }
          emptyConfigFile emptyConfigFile ∧
    loadConfig
        { apiKey := some "k", baseUrl := none, containerTagUser := none,
          containerTagProject := none }
        emptyConfigFile (readJsoncConfigFile ConfigFileState.malformed)
      = loadConfig
          { apiKey := some "k", baseUrl := none, containerTagUser := none,
            containerTagProject := none }
          emptyConfigFile emptyConfigFile :=
  readJsoncConfigFile_failure_is_empty ConfigFileState.malformed _ _ rfl

/-- C4 counterexample: the claim asserts an explicit override is used
verbatim for every supplied override string, but supplying the empty string
as the user override yields the derived tag, not the empty string, because
`if (overrides?.containerTagUser)` is a truthiness test. -/
theorem override_empty_string_not_verbatim :
    (getTagsWithOverrides "alice" "/tmp/one"
        { containerTagUser := some "", containerTagProject := none }).user ≠ "" := by
  decide

/-- C4 (amended): an explicit non-empty container-tag override for either
scope is returned verbatim, bypassing hashing, for every directory, username
and overrides object. -/
theorem override_nonempty_used_verbatim (username directory : String)
    (overrides : TagOverrides) :
    (∀ u, overrides.containerTagUser = some u → u ≠ "" →
      (getTagsWithOverrides username directory overrides).user = u) ∧
    (∀ p, overrides.containerTagProject = some p → p ≠ "" →
      (getTagsWithOverrides username directory overrides).project = p) := by
  constructor
  · intro u hu hne
    cases hop : overrides.containerTagProject with
    | none => simp [getTagsWithOverrides, hu, hop, hne]
    | some p =>
      by_cases hp : p = "" <;> simp [getTagsWithOverrides, hu, hop, hne, hp]
  · intro p hp hne
    simp [getTagsWithOverrides, hp, hne]

/-- Witness for the amended C4 at concrete overrides for both scopes. -/
theorem override_nonempty_used_verbatim_witness :
    (getTagsWithOverrides "alice" "/tmp/one"
        { containerTagUser := some "custom-user", containerTagProject := some "custom-proj" }).user
      = "custom-user" ∧
    (getTagsWithOverrides "alice" "/tmp/one"
        { containerTagUser := some "custom-user", containerTagProject := some "custom-proj" }).project
      = "custom-proj" :=
  ⟨(override_nonempty_used_verbatim "alice" "/tmp/one" _).1 "custom-user" rfl (by decide),
    (override_nonempty_used_verbatim "alice" "/tmp/one" _).2 "custom-proj" rfl (by decide)⟩

/-- C10: empty-string container-tag overrides are ignored: for every username
and directory, supplying `""` for either or both override fields returns
exactly the derived tags, as if no override had been supplied. -/
theorem override_empty_string_ignored (username directory : String) :
    getTagsWithOverrides username directory
        { containerTagUser := some "", containerTagProject := some "" }
      = getTags username directory ∧
    getTagsWithOverrides username directory
        { containerTagUser := some "", containerTagProject := none }
      = getTags username directory ∧
    getTagsWithOverrides username directory
        { containerTagUser := none, containerTagProject := some "" }
      = getTags username directory := by
  refine ⟨?_, ?_, ?_⟩ <;> simp [getTagsWithOverrides]

/-! ## Privacy filter (services/privacy.ts)

The regex `/<private>[\s\S]*?<\/private>/g` is embedded as a left-to-right
scanner: at each position, if the open marker starts there, the span up to
and including the first close marker after it is removed and scanning resumes
after it; if no close marker follows, the regex has no further match and the
remainder is kept. The scanner carries fuel; `stripPrivateContent` supplies
fuel equal to the input length, which every theorem below shows sufficient. -/

def openTag : List Char := ['<', 'p', 'r', 'i', 'v', 'a', 't', 'e', '>']

def closeTag : List Char := ['<', '/', 'p', 'r', 'i', 'v', 'a', 't', 'e', '>']

/-- Matches `pat` at the start of the list, returning the remainder. -/
def stripPrefixChars : List Char → List Char → Option (List Char)
  | [], cs => some cs
  | _ :: _, [] => none
  | p :: ps, c :: cs => if p == c then stripPrefixChars ps cs else none

/-- Drops everything up to and including the first occurrence of `pat`. -/
def dropAfterFirst (pat : List Char) : List Char → Option (List Char)
  | [] => none
  | c :: rest =>
    match stripPrefixChars pat (c :: rest) with
    | some post => some post
    | none => dropAfterFirst pat rest

/-- One left-to-right pass removing every lazily-matched private span. -/
def stripCore : Nat → List Char → List Char
  | 0, cs => cs
  | _ + 1, [] => []
  | fuel + 1, c :: rest =>
    match stripPrefixChars openTag (c :: rest) with
    | some afterOpen =>
      match dropAfterFirst closeTag afterOpen with
      | some post => stripCore fuel post
      | none => c :: rest
    | none => c :: stripCore fuel rest

/-- Code points treated as whitespace by JavaScript `String.prototype.trim`. -/
def jsWhitespaceCodes : List Nat :=
  [9, 10, 11, 12, 13, 32, 160, 5760, 8192, 8193, 8194, 8195, 8196, 8197, 8198,
   8199, 8200, 8201, 8202, 8232, 8233, 8239, 8287, 12288, 65279]

def jsWhitespace (c : Char) : Bool := jsWhitespaceCodes.contains c.toNat

/-- JavaScript `String.prototype.trim` on a character list. -/
def jsTrim (cs : List Char) : List Char :=
  ((cs.dropWhile jsWhitespace).reverse.dropWhile jsWhitespace).reverse

/-- Embeds `stripPrivateContent`: `if (!text) return ""` then
`text.replace(/<private>[\s\S]*?<\/private>/g, "").trim()`. -/
def stripPrivateContent (text : String) : String :=
  if text = "" then ""
  else String.mk (jsTrim (stripCore text.toList.length text.toList))

/-- Wraps `stripPrivateContent` for an `undefined` argument, which the
`!text` guard also maps to the empty string. -/
def stripPrivateContentOpt : Option String → String
  | none => ""
  | some t => stripPrivateContent t

/-- Embeds `isFullyPrivate`. -/
def isFullyPrivate (text : String) : Bool :=
  (stripPrivateContent text).length == 0

/-- Builds `a₀ <private> x₀ </private> a₁ <private> x₁ </private> … tail`. -/
def interleave : List (List Char × List Char) → List Char → List Char
  | [], tail => tail
  | (a, x) :: rest, tail => a ++ (openTag ++ (x ++ (closeTag ++ interleave rest tail)))

theorem beq_symm_false {c d : Char} (h : (c == d) = false) : (d == c) = false := by
  rw [beq_eq_false_iff_ne] at h ⊢
  exact fun e => h e.symm

theorem stripPrefixChars_append_self (p r : List Char) :
    stripPrefixChars p (p ++ r) = some r := by
  induction p with
  | nil => simp [stripPrefixChars]
  | cons c cs ih => simp [stripPrefixChars, ih]

theorem stripPrefixChars_head_ne (p : Char) (ps : List Char) (c : Char) (t : List Char)
    (h : (p == c) = false) : stripPrefixChars (p :: ps) (c :: t) = none := by
  simp [stripPrefixChars, h]

theorem stripPrefixChars_openTag_ne (c : Char) (t : List Char)
    (hc : ('<' == c) = false) : stripPrefixChars openTag (c :: t) = none := by
  rw [show openTag = '<' :: ['p', 'r', 'i', 'v', 'a', 't', 'e', '>'] from rfl]
  exact stripPrefixChars_head_ne _ _ _ _ hc

theorem stripPrefixChars_closeTag_ne (c : Char) (t : List Char)
    (hc : ('<' == c) = false) : stripPrefixChars closeTag (c :: t) = none := by
  rw [show closeTag = '<' :: ['/', 'p', 'r', 'i', 'v', 'a', 't', 'e', '>'] from rfl]
  exact stripPrefixChars_head_ne _ _ _ _ hc

theorem dropAfterFirst_clean (x r : List Char) (hx : x.all (fun c => c != '<') = true) :
    dropAfterFirst closeTag (x ++ (closeTag ++ r)) = some r := by
  induction x with
  | nil =>
    rw [List.nil_append]
    rw [show closeTag ++ r = '<' :: (['/', 'p', 'r', 'i', 'v', 'a', 't', 'e', '>'] ++ r) from rfl]
    rw [dropAfterFirst]
    rw [show ('<' :: (['/', 'p', 'r', 'i', 'v', 'a', 't', 'e', '>'] ++ r)) = closeTag ++ r from rfl]
    simp only [stripPrefixChars_append_self]
  | cons c x2 ih =>
    simp only [List.all_cons, Bool.and_eq_true] at hx
    have hc : ('<' == c) = false := beq_symm_false (by simpa using hx.1)
    rw [List.cons_append, dropAfterFirst, stripPrefixChars_closeTag_ne c _ hc]
    exact ih hx.2

theorem stripCore_clean (fuel : Nat) (cs : List Char)
    (h : cs.all (fun c => c != '<') = true) : stripCore fuel cs = cs := by
  induction fuel generalizing cs with
  | zero => rfl
  | succ fuel ih =>
    cases cs with
    | nil => rfl
    | cons c t =>
      simp only [List.all_cons, Bool.and_eq_true] at h
      have hc : ('<' == c) = false := beq_symm_false (by simpa using h.1)
      rw [stripCore, stripPrefixChars_openTag_ne c t hc]
      show c :: stripCore fuel t = c :: t
      rw [ih t h.2]

theorem stripCore_skip_clean (a : List Char) (fuel : Nat) (cs : List Char)
    (h : a.all (fun c => c != '<') = true) :
    stripCore (a.length + fuel) (a ++ cs) = a ++ stripCore fuel cs := by
  induction a with
  | nil => simp
  | cons c a2 ih =>
    simp only [List.all_cons, Bool.and_eq_true] at h
    have hc : ('<' == c) = false := beq_symm_false (by simpa using h.1)
    have hlen : (c :: a2).length + fuel = (a2.length + fuel) + 1 := by
      simp only [List.length_cons]
      omega
    rw [hlen, List.cons_append, stripCore, stripPrefixChars_openTag_ne c _ hc]
    show c :: stripCore (a2.length + fuel) (a2 ++ cs) = (c :: a2) ++ stripCore fuel cs
    rw [ih h.2, List.cons_append]

theorem stripCore_span (fuel : Nat) (x r : List Char)
    (hx : x.all (fun c => c != '<') = true) :
    stripCore (fuel + 1) (openTag ++ (x ++ (closeTag ++ r))) = stripCore fuel r := by
  rw [show openTag ++ (x ++ (closeTag ++ r))
      = '<' :: (['p', 'r', 'i', 'v', 'a', 't', 'e', '>'] ++ (x ++ (closeTag ++ r))) from rfl]
  rw [stripCore]
  rw [show ('<' :: (['p', 'r', 'i', 'v', 'a', 't', 'e', '>'] ++ (x ++ (closeTag ++ r))))
      = openTag ++ (x ++ (closeTag ++ r)) from rfl]
  simp only [stripPrefixChars_append_self, dropAfterFirst_clean x r hx]

theorem length_interleave_cons (a x : List Char) (rest : List (List Char × List Char))
    (tail : List Char) :
    (interleave ((a, x) :: rest) tail).length
      = a.length + (9 + (x.length + (10 + (interleave rest tail).length))) := by
  simp only [interleave, openTag, closeTag, List.length_append, List.length_cons,
    List.length_nil]

theorem stripCore_interleave (segs : List (List Char × List Char)) (tail : List Char)
    (fuel : Nat)
    (hsegs : ∀ p ∈ segs, p.1.all (fun c => c != '<') = true ∧
      p.2.all (fun c => c != '<') = true)
    (htail : tail.all (fun c => c != '<') = true)
    (hfuel : (interleave segs tail).length ≤ fuel) :
    stripCore fuel (interleave segs tail) = (segs.map Prod.fst).flatten ++ tail := by
  induction segs generalizing fuel with
  | nil => simpa [interleave] using stripCore_clean fuel tail htail
  | cons hd rest ih =>
    obtain ⟨a, x⟩ := hd
    have hhd := hsegs (a, x) (by simp)
    have hrest : ∀ p ∈ rest, p.1.all (fun c => c != '<') = true ∧
        p.2.all (fun c => c != '<') = true := fun p hp => hsegs p (by simp [hp])
    rw [length_interleave_cons] at hfuel
    have hfa : a.length + (fuel - a.length) = fuel := by omega
    have hf2 : fuel - a.length = (fuel - a.length - 1) + 1 := by omega
    calc stripCore fuel (interleave ((a, x) :: rest) tail)
        = stripCore (a.length + (fuel - a.length))
            (a ++ (openTag ++ (x ++ (closeTag ++ interleave rest tail)))) := by
          rw [hfa]; rfl
      _ = a ++ stripCore (fuel - a.length)
            (openTag ++ (x ++ (closeTag ++ interleave rest tail))) :=
          stripCore_skip_clean a _ _ hhd.1
      _ = a ++ stripCore (fuel - a.length - 1) (interleave rest tail) := by
          conv_lhs => rw [hf2]
          rw [stripCore_span _ _ _ hhd.2]
      _ = a ++ ((rest.map Prod.fst).flatten ++ tail) := by
          rw [ih (fuel - a.length - 1) hrest (by omega)]
      _ = ((((a, x) :: rest).map Prod.fst).flatten ++ tail) := by simp

theorem interleave_eq_nil (segs : List (List Char × List Char)) (tail : List Char)
    (h : interleave segs tail = []) : segs = [] ∧ tail = [] := by
  cases segs with
  | nil => exact ⟨rfl, h⟩
  | cons hd rest =>
    obtain ⟨a, x⟩ := hd
    exfalso
    have hlen := congrArg List.length h
    rw [length_interleave_cons] at hlen
    simp at hlen

/-- C6: `stripPrivateContent` removes every non-overlapping
`<private>...</private>` span — including spans whose content contains line
breaks — then trims leading and trailing whitespace; empty and undefined
inputs yield the empty string; `strip("a<private>x</private>b") = "ab"`; and
`isFullyPrivate text` is true iff stripping `text` yields the empty string.
The general removal statement is over inputs assembled from span-free
segments and span bodies (no `<` character, so no marker occurrences). -/
theorem stripPrivateContent_spec :
    stripPrivateContentOpt none = "" ∧
    stripPrivateContent "" = "" ∧
    stripPrivateContent "a<private>x</private>b" = "ab" ∧
    stripPrivateContent "p<private>x\ny</private>q<private>z</private>r" = "pqr" ∧
    (∀ (segs : List (List Char × List Char)) (tail : List Char),
      (∀ p ∈ segs, p.1.all (fun c => c != '<') = true ∧
        p.2.all (fun c => c != '<') = true) →
      tail.all (fun c => c != '<') = true →
      stripPrivateContent (String.mk (interleave segs tail))
        = String.mk (jsTrim ((segs.map Prod.fst).flatten ++ tail))) ∧
    (∀ t, isFullyPrivate t = true ↔ stripPrivateContent t = "") := by
  refine ⟨rfl, rfl, by decide, by decide, ?_, ?_⟩
  · intro segs tail hsegs htail
    by_cases h0 : String.mk (interleave segs tail) = ""
    · rw [show ("" : String) = String.mk [] from rfl] at h0
      injection h0 with h0
      obtain ⟨hs, ht⟩ := interleave_eq_nil segs tail h0
      subst hs; subst ht
      rfl
    · rw [stripPrivateContent, if_neg h0]
      show String.mk (jsTrim (stripCore (interleave segs tail).length
        (interleave segs tail))) = _
      rw [stripCore_interleave segs tail _ hsegs htail (le_refl _)]
  · intro t
    constructor
    · intro h
      have h2 : ((stripPrivateContent t).length == 0) = true := h
      have h3 : (stripPrivateContent t).length = 0 := eq_of_beq h2
      cases hs : stripPrivateContent t with
      | mk l =>
        rw [hs] at h3
        have hl : l = [] := List.length_eq_zero.mp h3
        rw [hl]
    · intro h
      simp [isFullyPrivate, h]

/-- Witness for C6 instantiating the general removal statement at a concrete
segment list with a multiline span body. -/
theorem stripPrivateContent_spec_witness :
    stripPrivateContent (String.mk (interleave [(['k'], ['s', '\n'])] ['t']))
      = String.mk (jsTrim (([(['k'], ['s', '\n'])].map Prod.fst).flatten ++ ['t'])) :=
  stripPrivateContent_spec.2.2.2.2.1 [(['k'], ['s', '\n'])] ['t'] (by decide) (by decide)

/-! ## Compaction tracker (services/compaction.ts)

The module-level `Map` of per-session states is embedded as a function
`String → Option CompactionSessionState` threaded explicitly; `Date.now()` is
an explicit `Int` argument; the `momo.conversations.ingest` call is recorded
as an emitted `IngestRequest` (the code awaits it inside `try`/`catch`, so the
request is issued exactly when the emit branch runs, regardless of failures). -/

structure CompactionSessionState where
  lastCompaction : Int
  inProgress : Bool
deriving DecidableEq, Repr

def COMPACTION_COOLDOWN_MS : Int := 30000

def freshCompactionState : CompactionSessionState :=
  { lastCompaction := 0, inProgress := false }

def SessionStates : Type := String → Option CompactionSessionState

def emptySessionStates : SessionStates := fun _ => none

def setSessionState (m : SessionStates) (sid : String)
    (st : CompactionSessionState) : SessionStates :=
  fun x => if x = sid then some st else m x

def deleteSessionState (m : SessionStates) (sid : String) : SessionStates :=
  fun x => if x = sid then none else m x

/-- Embeds `getState`: returns the tracked state, inserting the default entry
on first touch, exactly as the source mutates the `Map`. -/
def getState (m : SessionStates) (sid : String) :
    CompactionSessionState × SessionStates :=
  match m sid with
  | some st => (st, m)
  | none => (freshCompactionState, setSessionState m sid freshCompactionState)

structure SummaryMessageInfo where
  role : String
  summary : Bool
  finish : Bool
  sessionID : String
deriving DecidableEq, Repr

inductive CompactionEvent where
  | sessionCompacted (sessionID : String)
  | messageUpdated (info : SummaryMessageInfo)
  | sessionDeleted (id : String)
  | otherEvent
deriving DecidableEq, Repr

structure IngestRequest where
  containerTag : String
  sessionId : String
  memoryType : String
  content : String
deriving DecidableEq, Repr

def compactionMarker (sid : String) : String :=
  "[Session compaction summary for session " ++ sid ++ "]"

/-- Embeds `handleCompactionEvent`; returns the updated state map and the
list of ingestion requests issued while handling the event. -/
def handleCompactionEvent (e : CompactionEvent) (now : Int) (containerTag : String)
    (m : SessionStates) : SessionStates × List IngestRequest :=
  match e with
  | .sessionCompacted sid =>
    let r := getState m sid
    (setSessionState r.2 sid { r.1 with inProgress := true }, [])
  | .messageUpdated info =>
    if info.role ≠ "assistant" then (m, [])
    else if info.summary = false then (m, [])
    else if info.finish = false then (m, [])
    else
      let r := getState m info.sessionID
      if r.1.inProgress = false then (r.2, [])
      else if now - r.1.lastCompaction < COMPACTION_COOLDOWN_MS then
        (setSessionState r.2 info.sessionID { r.1 with inProgress := false }, [])
      else
        (setSessionState r.2 info.sessionID
            { lastCompaction := now, inProgress := false },
          [{ containerTag := containerTag, sessionId := info.sessionID,
             memoryType := "episode", content := compactionMarker info.sessionID }])
  | .sessionDeleted sid => (deleteSessionState m sid, [])
  | .otherEvent => (m, [])

/-- Runs a list of events, each paired with its `Date.now()` reading, and
collects every ingestion request issued along the way. -/
def runCompactionTrace (containerTag : String) :
    List (CompactionEvent × Int) → SessionStates → SessionStates × List IngestRequest
  | [], m => (m, [])
  | (e, t) :: rest, m =>
    let r1 := handleCompactionEvent e t containerTag m
    let r2 := runCompactionTrace containerTag rest r1.1
    (r2.1, r1.2 ++ r2.2)

/-- The CompactionStarted / SummaryReady event pair of the C1 scenario, both
observed at wall-clock reading `t`. -/
def c1Pair (t : Int) : List (CompactionEvent × Int) :=
  [(.sessionCompacted "s1", t),
   (.messageUpdated
      { role := "assistant", summary := true, finish := true, sessionID := "s1" },
    t)]

/-- The single ingestion request the scenario emits per accepted summary. -/
def c1Req (ct : String) : IngestRequest :=
  { containerTag := ct, sessionId := "s1", memoryType := "episode",
    content := compactionMarker "s1" }

theorem setSessionState_apply (m : SessionStates) (sid : String)
    (st : CompactionSessionState) (x : String) :
    setSessionState m sid st x = if x = sid then some st else m x := rfl

theorem deleteSessionState_apply (m : SessionStates) (sid x : String) :
    deleteSessionState m sid x = if x = sid then none else m x := rfl

theorem getState_fst_of_some (m : SessionStates) (sid : String)
    (st : CompactionSessionState) (h : m sid = some st) : (getState m sid).1 = st := by
  simp [getState, h]

theorem getState_snd (m : SessionStates) (sid x : String) :
    (getState m sid).2 x = if x = sid then some (getState m sid).1 else m x := by
  cases h : m sid with
  | some st =>
    simp only [getState, h]
    by_cases hx : x = sid
    · subst hx
      rw [if_pos rfl, h]
    · rw [if_neg hx]
  | none =>
    simp only [getState, h, setSessionState_apply]

/-- C1 counterexample: starting from no tracked state, the pair
CompactionStarted(s1) then SummaryReady(s1, now=0) emits no ingestion request
at all — `lastCompaction` initializes to 0, so `0 - 0 < 30000` hits the
cooldown branch — contradicting the claimed "exactly one". -/
theorem compaction_pair_at_zero_emits_nothing :
    (runCompactionTrace "proj" (c1Pair 0) emptySessionStates).2 = [] := rfl

/-- C1 (amended): with the scenario clock started at 100000 ms (any epoch at
cooldown distance from the zero-initialized `lastCompaction`), the pair
CompactionStarted(s1)/SummaryReady(s1, 100000) emits exactly one ingestion
request tagged with the supplied project container tag and episode type;
repeating the pair at 110000 ms emits none (inside the 30000 ms cooldown);
repeating it at 131000 ms emits exactly one more; and after SessionEnded(s1),
a fresh pair at the same instant emits again because the state was deleted. -/
theorem compaction_cooldown_scenario (ct : String) :
    (runCompactionTrace ct (c1Pair 100000) emptySessionStates).2 = [c1Req ct] ∧
    (runCompactionTrace ct (c1Pair 110000)
        (runCompactionTrace ct (c1Pair 100000) emptySessionStates).1).2 = [] ∧
    (runCompactionTrace ct (c1Pair 131000)
        (runCompactionTrace ct (c1Pair 110000)
          (runCompactionTrace ct (c1Pair 100000) emptySessionStates).1).1).2
      = [c1Req ct] ∧
    (runCompactionTrace ct
        ((CompactionEvent.sessionDeleted "s1", 131000) :: c1Pair 131000)
        (runCompactionTrace ct (c1Pair 131000)
          (runCompactionTrace ct (c1Pair 110000)
            (runCompactionTrace ct (c1Pair 100000) emptySessionStates).1).1).1).2
      = [c1Req ct] :=
  ⟨rfl, rfl, rfl, rfl⟩

theorem handleCompactionEvent_lastCompaction_mono (e : CompactionEvent) (now : Int)
    (ct : String) (m : SessionStates) (sid : String)
    (st st2 : CompactionSessionState) (hb : m sid = some st)
    (ha : (handleCompactionEvent e now ct m).1 sid = some st2) :
    st.lastCompaction ≤ st2.lastCompaction := by
  cases e with
  | sessionCompacted s =>
    simp only [handleCompactionEvent] at ha
    have ha2 : setSessionState (getState m s).2 s
        { (getState m s).1 with inProgress := true } sid = some st2 := ha
    rw [setSessionState_apply] at ha2
    by_cases hs : sid = s
    · subst hs
      rw [if_pos rfl, getState_fst_of_some m sid st hb] at ha2
      injection ha2 with h2
      rw [← h2]
    · rw [if_neg hs, getState_snd, if_neg hs, hb] at ha2
      injection ha2 with h2
      subst h2
      exact le_refl _
  | messageUpdated info =>
    simp only [handleCompactionEvent] at ha
    by_cases h1 : info.role ≠ "assistant"
    · rw [if_pos h1] at ha
      have ha2 : m sid = some st2 := ha
      rw [hb] at ha2
      injection ha2 with h2
      subst h2
      exact le_refl _
    · rw [if_neg h1] at ha
      by_cases h2 : info.summary = false
      · rw [if_pos h2] at ha
        have ha2 : m sid = some st2 := ha
        rw [hb] at ha2
        injection ha2 with h3
        subst h3
        exact le_refl _
      · rw [if_neg h2] at ha
        by_cases h3 : info.finish = false
        · rw [if_pos h3] at ha
          have ha2 : m sid = some st2 := ha
          rw [hb] at ha2
          injection ha2 with h4
          subst h4
          exact le_refl _
        · rw [if_neg h3] at ha
          by_cases h4 : (getState m info.sessionID).1.inProgress = false
          · rw [if_pos h4] at ha
            have ha2 : (getState m info.sessionID).2 sid = some st2 := ha
            rw [getState_snd] at ha2
            by_cases h5 : sid = info.sessionID
            · subst h5
              rw [if_pos rfl, getState_fst_of_some m info.sessionID st hb] at ha2
              injection ha2 with h6
              subst h6
              exact le_refl _
            · rw [if_neg h5, hb] at ha2
              injection ha2 with h6
              subst h6
              exact le_refl _
          · rw [if_neg h4] at ha
            by_cases h5 : now - (getState m info.sessionID).1.lastCompaction
                < COMPACTION_COOLDOWN_MS
            · rw [if_pos h5] at ha
              have ha2 : setSessionState (getState m info.sessionID).2 info.sessionID
                  { (getState m info.sessionID).1 with inProgress := false } sid
                    = some st2 := ha
              rw [setSessionState_apply] at ha2
              by_cases h6 : sid = info.sessionID
              · subst h6
                rw [if_pos rfl, getState_fst_of_some m info.sessionID st hb] at ha2
                injection ha2 with h7
                rw [← h7]
              · rw [if_neg h6, getState_snd, if_neg h6, hb] at ha2
                injection ha2 with h7
                subst h7
                exact le_refl _
            · rw [if_neg h5] at ha
              have ha2 : setSessionState (getState m info.sessionID).2 info.sessionID
                  { lastCompaction := now, inProgress := false } sid = some st2 := ha
              rw [setSessionState_apply] at ha2
              by_cases h6 : sid = info.sessionID
              · subst h6
                rw [if_pos rfl] at ha2
                injection ha2 with h7
                rw [← h7]
                show st.lastCompaction ≤ now
                rw [getState_fst_of_some m info.sessionID st hb] at h5
                rw [show COMPACTION_COOLDOWN_MS = (30000 : Int) from rfl] at h5
                omega
              · rw [if_neg h6, getState_snd, if_neg h6, hb] at ha2
                injection ha2 with h7
                subst h7
                exact le_refl _
  | sessionDeleted s =>
    simp only [handleCompactionEvent] at ha
    have ha2 : deleteSessionState m s sid = some st2 := ha
    rw [deleteSessionState_apply] at ha2
    by_cases hs : sid = s
    · rw [if_pos hs] at ha2
      exact absurd ha2 (by simp)
    · rw [if_neg hs, hb] at ha2
      injection ha2 with h2
      subst h2
      exact le_refl _
  | otherEvent =>
    have ha2 : m sid = some st2 := ha
    rw [hb] at ha2
    injection ha2 with h2
    subst h2
    exact le_refl _

/-- C5: along any compaction event trace processed in order with
non-decreasing wall-clock readings, a tracked session's `lastCompaction`
field is monotonically non-decreasing for as long as its entry exists: no
single transition assigns it a value smaller than its current value. -/
theorem lastCompaction_monotone_along_trace (ct : String)
    (tr : List (CompactionEvent × Int)) (e : CompactionEvent) (t : Int)
    (sid : String) (st st2 : CompactionSessionState)
    (hclock : ((tr ++ [(e, t)]).map Prod.snd).Chain' (fun a b => a ≤ b))
    (hb : (runCompactionTrace ct tr emptySessionStates).1 sid = some st)
    (ha : (handleCompactionEvent e t ct
      (runCompactionTrace ct tr emptySessionStates).1).1 sid = some st2) :
    st.lastCompaction ≤ st2.lastCompaction :=
  handleCompactionEvent_lastCompaction_mono e t ct _ sid st st2 hb ha

/-- Witness for C5: after CompactionStarted("s") at 0, the SummaryReady
transition at 40000 raises `lastCompaction` from 0 to 40000. -/
theorem lastCompaction_monotone_along_trace_witness :
    ({ lastCompaction := 0, inProgress := true } : CompactionSessionState).lastCompaction
      ≤ ({ lastCompaction := 40000, inProgress := false } :
          CompactionSessionState).lastCompaction :=
  lastCompaction_monotone_along_trace "p" [(.sessionCompacted "s", 0)]
    (.messageUpdated
      { role := "assistant", summary := true, finish := true, sessionID := "s" })
    40000 "s" { lastCompaction := 0, inProgress := true }
    { lastCompaction := 40000, inProgress := false }
    (by norm_num [List.chain'_cons, List.chain'_singleton]) rfl rfl

/-! ## Context formatting (services/context.ts) -/

structure MemoryItem where
  content : Option String
  memoryType : Option String
deriving DecidableEq, Repr

structure ProfileData where
  summary : Option String
  traits : Option (List String)
deriving DecidableEq, Repr

/-- Renders one memory bullet line: JavaScript interpolation prints an absent
content as the literal "undefined", and the bracketed type label is added
only when `memoryType` is truthy (present and non-empty). -/
def renderMemoryLine (m : MemoryItem) : String :=
  let contentStr :=
    match m.content with
    | some c => c
    | none => "undefined"
  let typeLabel :=
    match m.memoryType with
    | some t => if t = "" then "" else " [" ++ t ++ "]"
    | none => ""
  "- " ++ contentStr ++ typeLabel

/-- The profile-summary section, pushed when `profile?.summary` is truthy. -/
def profileSummarySections (profile : Option ProfileData) : List String :=
  match profile with
  | some p =>
    match p.summary with
    | some s => if s = "" then [] else ["## User Profile\n" ++ s]
    | none => []
  | none => []

/-- The known-preferences section, pushed when `profile?.traits` is present
and non-empty. -/
def profileTraitsSections (profile : Option ProfileData) : List String :=
  match profile with
  | some p =>
    match p.traits with
    | some ts =>
      if ts.length > 0 then
        ["## Known Preferences\n" ++ String.intercalate "\n"
          (ts.map (fun t => "- " ++ t))]
      else []
    | none => []
  | none => []

def userMemoriesSections (userMemories : List MemoryItem) : List String :=
  if userMemories.length > 0 then
    ["## Recent User Context\n" ++ String.intercalate "\n"
      (userMemories.map renderMemoryLine)]
  else []

def projectMemoriesSections (projectMemories : List MemoryItem) : List String :=
  if projectMemories.length > 0 then
    ["## Project Knowledge\n" ++ String.intercalate "\n"
      (projectMemories.map renderMemoryLine)]
  else []

/-- The `sections` array in push order: profile summary, known preferences,
user memories, project memories. -/
def contextSections (profile : Option ProfileData)
    (userMemories projectMemories : List MemoryItem) : List String :=
  profileSummarySections profile ++ profileTraitsSections profile ++
    userMemoriesSections userMemories ++ projectMemoriesSections projectMemories

def MOMO_BEGIN_MARKER : String := "[MOMO MEMORY - Context from previous sessions]"

def MOMO_END_MARKER : String := "[END MOMO MEMORY]"

/-- Embeds `formatContextForPrompt`. -/
def formatContextForPrompt (profile : Option ProfileData)
    (userMemories projectMemories : List MemoryItem) : String :=
  let sections := contextSections profile userMemories projectMemories
  if sections.length = 0 then ""
  else
    MOMO_BEGIN_MARKER ++ "\n\n" ++ String.intercalate "\n\n" sections ++ "\n\n"
      ++ MOMO_END_MARKER

theorem profileSummarySections_eq_nil (p : Option ProfileData) :
    profileSummarySections p = []
      ↔ (∀ pd, p = some pd → ∀ s, pd.summary = some s → s = "") := by
  cases p with
  | none => simp [profileSummarySections]
  | some pd =>
    cases hs : pd.summary with
    | none => simp [profileSummarySections, hs]
    | some s =>
      by_cases h : s = "" <;> simp [profileSummarySections, hs, h]

theorem profileTraitsSections_eq_nil (p : Option ProfileData) :
    profileTraitsSections p = []
      ↔ (∀ pd, p = some pd → ∀ ts, pd.traits = some ts → ts = []) := by
  cases p with
  | none => simp [profileTraitsSections]
  | some pd =>
    cases ht : pd.traits with
    | none => simp [profileTraitsSections, ht]
    | some ts =>
      cases ts with
      | nil => simp [profileTraitsSections, ht]
      | cons a l => simp [profileTraitsSections, ht]

theorem userMemoriesSections_eq_nil (u : List MemoryItem) :
    userMemoriesSections u = [] ↔ u = [] := by
  cases u <;> simp [userMemoriesSections]

theorem projectMemoriesSections_eq_nil (pj : List MemoryItem) :
    projectMemoriesSections pj = [] ↔ pj = [] := by
  cases pj <;> simp [projectMemoriesSections]

theorem momo_wrap_ne_empty (body : String) :
    MOMO_BEGIN_MARKER ++ "\n\n" ++ body ++ "\n\n" ++ MOMO_END_MARKER ≠ "" := by
  intro h
  have h2 := congrArg String.length h
  rw [String.length_append, String.length_append, String.length_append,
    String.length_append] at h2
  have hb : 0 < MOMO_BEGIN_MARKER.length := by decide
  have he : ("" : String).length = 0 := rfl
  rw [he] at h2
  omega

/-- C7: `formatContextForPrompt` returns the empty string iff no section has
content (no truthy profile summary, no non-empty trait list, both memory
lists empty); otherwise the result is a single block starting with the begin
marker and ending with the end marker; the user-memory section renders its
lines from the input list in order via `renderMemoryLine`, which adds a
bracketed type label exactly when a memoryType is present (and truthy); and
`format(undefined, [], []) = ""`. -/
theorem formatContextForPrompt_spec (p : Option ProfileData)
    (u pj : List MemoryItem) :
    formatContextForPrompt none [] [] = "" ∧
    formatContextForPrompt (some { summary := some "S", traits := none }) [] []
      = "[MOMO MEMORY - Context from previous sessions]\n\n## User Profile\nS\n\n[END MOMO MEMORY]" ∧
    (formatContextForPrompt p u pj = "" ↔
      ((∀ pd, p = some pd →
          (∀ s, pd.summary = some s → s = "") ∧
          (∀ ts, pd.traits = some ts → ts = [])) ∧
        u = [] ∧ pj = [])) ∧
    (formatContextForPrompt p u pj ≠ "" →
      ∃ body, formatContextForPrompt p u pj
        = MOMO_BEGIN_MARKER ++ "\n\n" ++ body ++ "\n\n" ++ MOMO_END_MARKER) ∧
    (u ≠ [] →
      ("## Recent User Context\n"
          ++ String.intercalate "\n" (u.map renderMemoryLine))
        ∈ contextSections p u pj) ∧
    (pj ≠ [] →
      ("## Project Knowledge\n"
          ++ String.intercalate "\n" (pj.map renderMemoryLine))
        ∈ contextSections p u pj) ∧
    (∀ c t, t ≠ "" →
      renderMemoryLine { content := some c, memoryType := some t }
        = "- " ++ c ++ " [" ++ t ++ "]") ∧
    (∀ c, renderMemoryLine { content := some c, memoryType := none }
      = "- " ++ c) := by
  refine ⟨rfl, rfl, ?_, ?_, ?_, ?_, ?_, ?_⟩
  · constructor
    · intro h
      have hz : (contextSections p u pj).length = 0 := by
        by_contra hz
        rw [show formatContextForPrompt p u pj
            = (if (contextSections p u pj).length = 0 then ""
              else MOMO_BEGIN_MARKER ++ "\n\n"
                ++ String.intercalate "\n\n" (contextSections p u pj) ++ "\n\n"
                ++ MOMO_END_MARKER) from rfl, if_neg hz] at h
        exact momo_wrap_ne_empty _ h
      rw [List.length_eq_zero] at hz
      rw [contextSections] at hz
      have h1 := List.append_eq_nil.mp hz
      have h2 := List.append_eq_nil.mp h1.1
      have h3 := List.append_eq_nil.mp h2.1
      refine ⟨?_, (userMemoriesSections_eq_nil u).mp h2.2,
        (projectMemoriesSections_eq_nil pj).mp h1.2⟩
      intro pd hpd
      exact ⟨fun s hs => (profileSummarySections_eq_nil p).mp h3.1 pd hpd s hs,
        fun ts hts => (profileTraitsSections_eq_nil p).mp h3.2 pd hpd ts hts⟩
    · intro ⟨hp, hu, hpj⟩
      have h1 : profileSummarySections p = [] :=
        (profileSummarySections_eq_nil p).mpr (fun pd hpd s hs => (hp pd hpd).1 s hs)
      have h2 : profileTraitsSections p = [] :=
        (profileTraitsSections_eq_nil p).mpr (fun pd hpd ts hts => (hp pd hpd).2 ts hts)
      have h3 : userMemoriesSections u = [] := (userMemoriesSections_eq_nil u).mpr hu
      have h4 : projectMemoriesSections pj = [] :=
        (projectMemoriesSections_eq_nil pj).mpr hpj
      show (if (contextSections p u pj).length = 0 then ""
        else MOMO_BEGIN_MARKER ++ "\n\n"
          ++ String.intercalate "\n\n" (contextSections p u pj) ++ "\n\n"
          ++ MOMO_END_MARKER) = ""
      rw [contextSections, h1, h2, h3, h4]
      rfl
  · intro hne
    by_cases hz : (contextSections p u pj).length = 0
    · exfalso
      apply hne
      show (if (contextSections p u pj).length = 0 then ""
        else MOMO_BEGIN_MARKER ++ "\n\n"
          ++ String.intercalate "\n\n" (contextSections p u pj) ++ "\n\n"
          ++ MOMO_END_MARKER) = ""
      rw [if_pos hz]
    · refine ⟨String.intercalate "\n\n" (contextSections p u pj), ?_⟩
      show (if (contextSections p u pj).length = 0 then ""
        else MOMO_BEGIN_MARKER ++ "\n\n"
          ++ String.intercalate "\n\n" (contextSections p u pj) ++ "\n\n"
          ++ MOMO_END_MARKER) = _
      rw [if_neg hz]
  · intro hu
    cases u with
    | nil => exact absurd rfl hu
    | cons a l =>
      simp [contextSections, userMemoriesSections]
  · intro hpj
    cases pj with
    | nil => exact absurd rfl hpj
    | cons a l =>
      simp [contextSections, projectMemoriesSections]
  · intro c t ht
    simp [renderMemoryLine, ht, String.append_assoc]
  · intro c
    simp [renderMemoryLine]

/-- Witness for C7 at a concrete memory list: the user-memory section with
the input-order lines appears among the rendered sections. -/
theorem formatContextForPrompt_spec_witness :
    ("## Recent User Context\n"
        ++ String.intercalate "\n"
          ([({ content := some "hello", memoryType := none } : MemoryItem)].map
            renderMemoryLine))
      ∈ contextSections none [{ content := some "hello", memoryType := none }] [] :=
  (formatContextForPrompt_spec none
    [{ content := some "hello", memoryType := none }] []).2.2.2.2.1 (by decide)

/-! ## Chat message injection hook (plugin index) -/

structure BackendFact where
  content : String
deriving DecidableEq, Repr

structure BackendProfile where
  narrative : Option String
  staticFacts : List BackendFact
deriving DecidableEq, Repr

structure BackendHit where
  content : Option String
deriving DecidableEq, Repr

/-- Outcome of the three parallel backend fetches in the chat.message hook
after their per-promise `.catch` fallbacks: a failed profile fetch is already
degraded to `none` and failed searches to `[]`, so every fetch outcome —
success or failure — is a value of this type. -/
structure FetchOutcome where
  profile : Option BackendProfile
  userHits : List BackendHit
  projectHits : List BackendHit
deriving DecidableEq, Repr

structure SyntheticPart where
  id : String
  sessionID : String
  messageID : String
  text : String
deriving DecidableEq, Repr

/-- Embeds the `chat.message` hook: the module-level `injectedSessions` set is
threaded as a list; the hook returns the updated set and the synthetic parts
prepended to the message (at most one). The session is marked injected before
the fetches run, so later calls skip regardless of fetch outcomes. -/
def chatMessageHook (configured : Bool) (injected : List String)
    (sessionID : String) (messageID : Option String) (fetch : FetchOutcome) :
    List String × List SyntheticPart :=
  if sessionID ∈ injected then (injected, [])
  else if configured = false then (injected, [])
  else
    let injected2 := sessionID :: injected
    let contextText := formatContextForPrompt
      (fetch.profile.map (fun pr =>
        { summary := pr.narrative,
          traits := some (pr.staticFacts.map (fun f => f.content)) }))
      (fetch.userHits.map (fun h => { content := h.content, memoryType := none }))
      (fetch.projectHits.map (fun h => { content := h.content, memoryType := none }))
    if contextText = "" then (injected2, [])
    else
      (injected2,
        [{ id := "momo-context-" ++ sessionID, sessionID := sessionID,
           messageID := messageID.getD "", text := contextText }])

/-- C8: injection is idempotent per session — across two sequential
invocations of the chat.message hook with the same session id, at most one
synthetic part in total is prepended, for every starting injected-set, every
configuration state and every pair of fetch outcomes (success or failure). -/
theorem chatMessageHook_idempotent (configured : Bool) (injected0 : List String)
    (sid : String) (mid1 mid2 : Option String) (f1 f2 : FetchOutcome) :
    ((chatMessageHook configured injected0 sid mid1 f1).2).length
      + ((chatMessageHook configured
          (chatMessageHook configured injected0 sid mid1 f1).1 sid mid2 f2).2).length
      ≤ 1 := by
  by_cases h0 : sid ∈ injected0
  · simp [chatMessageHook, h0]
  · by_cases hc : configured = false
    · simp [chatMessageHook, h0, hc]
    · simp only [chatMessageHook, if_neg h0, if_neg hc]
      by_cases hctx : formatContextForPrompt
          (f1.profile.map (fun pr =>
            { summary := pr.narrative,
              traits := some (pr.staticFacts.map (fun f => f.content)) }))
          (f1.userHits.map (fun h => { content := h.content, memoryType := none }))
          (f1.projectHits.map (fun h =>
            { content := h.content, memoryType := none })) = ""
      · rw [if_pos hctx]
        simp [chatMessageHook]
      · rw [if_neg hctx]
        simp [chatMessageHook]

/-! ## Ingestion polling (waitForIngestion in the plugin index) -/

def isTerminalStatus (s : String) : Bool := s == "completed" || s == "failed"

/-- Embeds the polling loop of `waitForIngestion`: `getStatus k` is the
status string the backend reports at the k-th poll, and the k-th iteration
runs at elapsed time `k * pollIntervalMs` (the loop sleeps the fixed
caller-supplied `pollIntervalMs` between polls — no backoff). The fuel bounds
iterations; exhausted fuel yields the same synthetic "processing" result as
an elapsed timeout. -/
def waitLoop (getStatus : Nat → String) (timeoutMs pollIntervalMs : Nat) :
    Nat → Nat → String
  | 0, _ => "processing"
  | fuel + 1, k =>
    if k * pollIntervalMs < timeoutMs then
      if isTerminalStatus (getStatus k) then getStatus k
      else waitLoop getStatus timeoutMs pollIntervalMs fuel (k + 1)
    else "processing"

/-- Embeds `waitForIngestion`: loop from the 0th poll. With a positive poll
interval, at most `timeoutMs` iterations satisfy the while-condition, so the
supplied fuel never runs out before the timeout check fails. -/
def waitForIngestion (getStatus : Nat → String) (timeoutMs pollIntervalMs : Nat) :
    String :=
  waitLoop getStatus timeoutMs pollIntervalMs (timeoutMs + 1) 0

theorem waitLoop_terminal (getStatus : Nat → String) (T P : Nat) (fuel k : Nat)
    (s : String) (hterm : isTerminalStatus s = true)
    (h : waitLoop getStatus T P fuel k = s) :
    ∃ j, k ≤ j ∧ j * P < T ∧ getStatus j = s := by
  induction fuel generalizing k with
  | zero =>
    rw [waitLoop] at h
    subst h
    exact absurd hterm (by decide)
  | succ fuel ih =>
    rw [waitLoop] at h
    by_cases h1 : k * P < T
    · rw [if_pos h1] at h
      by_cases h2 : isTerminalStatus (getStatus k) = true
      · rw [if_pos h2] at h
        exact ⟨k, le_refl k, h1, h⟩
      · rw [if_neg h2] at h
        obtain ⟨j, hj1, hj2, hj3⟩ := ih (k + 1) h
        exact ⟨j, by omega, hj2, hj3⟩
    · rw [if_neg h1] at h
      subst h
      exact absurd hterm (by decide)

theorem waitLoop_timeout (getStatus : Nat → String) (T P : Nat) (fuel k : Nat)
    (hall : ∀ j, j * P < T → isTerminalStatus (getStatus j) = false) :
    waitLoop getStatus T P fuel k = "processing" := by
  induction fuel generalizing k with
  | zero => rfl
  | succ fuel ih =>
    rw [waitLoop]
    by_cases h1 : k * P < T
    · rw [if_pos h1, if_neg (by simp [hall k h1])]
      exact ih (k + 1)
    · rw [if_neg h1]

/-- C9: for every trace of statuses the backend reports, `waitForIngestion`
returns "completed" or "failed" only if the backend reported that status at
some poll within the time budget; and if no poll within the budget reports a
terminal status, it returns the synthetic "processing" rather than raising.
Polls run at the fixed caller-supplied interval: the j-th status query
happens at elapsed time `j * pollIntervalMs`, with no backoff. -/
theorem waitForIngestion_spec (getStatus : Nat → String)
    (timeoutMs pollIntervalMs : Nat) :
    (∀ s, isTerminalStatus s = true →
      waitForIngestion getStatus timeoutMs pollIntervalMs = s →
      ∃ j, j * pollIntervalMs < timeoutMs ∧ getStatus j = s) ∧
    ((∀ j, j * pollIntervalMs < timeoutMs →
        isTerminalStatus (getStatus j) = false) →
      waitForIngestion getStatus timeoutMs pollIntervalMs = "processing") := by
  constructor
  · intro s hterm h
    obtain ⟨j, _, hj2, hj3⟩ :=
      waitLoop_terminal getStatus timeoutMs pollIntervalMs (timeoutMs + 1) 0 s hterm h
    exact ⟨j, hj2, hj3⟩
  · intro hall
    exact waitLoop_timeout getStatus timeoutMs pollIntervalMs (timeoutMs + 1) 0 hall

/-- Witness for C9: a backend that reports "completed" at the first poll
within a 10 ms budget at a 1 ms interval. -/
theorem waitForIngestion_spec_witness :
    ∃ j, j * 1 < 10 ∧ (fun _ => "completed") j = "completed" :=
  (waitForIngestion_spec (fun _ => "completed") 10 1).1 "completed" (by decide) rfl
